import Mathlib

/-!
Shallow embedding of the memory relevance-scoring and deduplication engine of
`src/core/unified_memory.py` (`UnifiedMemoryManager`).

Modelling conventions:
* Timestamps (`CURRENT_TIMESTAMP`, `datetime.now()`, `expires_at`) are abstract
  instants measured as `Nat` seconds; SQL timestamp comparison is modelled as the
  numeric order.  Each operation that reads the clock takes an explicit `now`.
* The SQLite `memories` table is a `List MemoryRecord` plus the `AUTOINCREMENT`
  counter `next_memory_id`; `conversation_history` is a `List ConversationTurn`.
* `ORDER BY` and Python's stable `list.sort` are modelled with
  `List.insertionSort` (a stable sort).
* Python string primitives (`lower`, `strip`, `split`, `in`, `startswith`,
  slicing) are re-implemented over `List Char`, matching Python's per-code-point
  semantics for the ASCII range plus the Turkish letters used by the source.
* `hashlib.sha256(combined).hexdigest()` is idealized as an injective encoding:
  `generate_hash` returns the combined pre-image string itself, so two inputs
  receive equal fingerprints exactly when the real code hashes equal byte
  strings (actual SHA-256 collisions are abstracted away).
-/

namespace Asena

/-! ### Python string primitives over char lists -/

/-- Python `needle == hay[:len(needle)]`, i.e. `hay.startswith(needle)` on char lists. -/
def chars_match : List Char → List Char → Bool
  | [], _ => true
  | _ :: _, [] => false
  | a :: as, b :: bs => a == b && chars_match as bs

/-- Python `needle in hay` (substring containment) on char lists. -/
def chars_has_sub (needle : List Char) : List Char → Bool
  | [] => needle.isEmpty
  | b :: t => chars_match needle (b :: t) || chars_has_sub needle t

/-- Python `needle in hay` for strings. -/
def has_substr (hay needle : String) : Bool :=
  chars_has_sub needle.data hay.data

/-- Python `s.startswith(p)`. -/
def py_starts (s p : String) : Bool :=
  chars_match p.data s.data

/-- Python `s.lower()` (ASCII range, as in Lean's `Char.toLower`). -/
def py_lower (s : String) : String :=
  String.mk (s.data.map Char.toLower)

/-- Python `s.strip()`: drop whitespace from both ends. -/
def py_strip (s : String) : String :=
  String.mk (((s.data.dropWhile Char.isWhitespace).reverse.dropWhile Char.isWhitespace).reverse)

/-- Python `s[:n]` (slicing counts code points, like `List.take` on `data`). -/
def py_take (s : String) (n : Nat) : String :=
  String.mk (s.data.take n)

/-- Helper for Python `s.split()`: accumulate the current word (reversed) while
scanning; whitespace runs are separators and empty words are dropped. -/
def words_aux : List Char → List Char → List (List Char)
  | [], cur => if cur.isEmpty then [] else [cur.reverse]
  | c :: cs, cur =>
    if c.isWhitespace then
      if cur.isEmpty then words_aux cs [] else cur.reverse :: words_aux cs []
    else
      words_aux cs (c :: cur)

/-- Python `s.split()` (split on whitespace runs, no empty words). -/
def py_split_words (s : String) : List String :=
  (words_aux s.data []).map String.mk

/-! ### Data model (schema of `_init_database`) -/

/-- One row of the `memories` table. -/
structure MemoryRecord where
  id : Nat
  user_name : String
  memory_type : String
  content : String
  importance : Int
  created_at : Nat
  updated_at : Nat
  last_accessed : Nat
  access_count : Nat
  context_hash : String
  is_permanent : Bool
  expires_at : Option Nat
  metadata : Option String
deriving DecidableEq

/-- One row of the `conversation_history` table. -/
structure ConversationTurn where
  id : Nat
  user_name : String
  user_message : String
  assistant_response : String
  timestamp : Nat
  context_hash : String
  sentiment : Option String
deriving DecidableEq

/-- One entry of the per-user short-term deque: `{'timestamp': ..., 'content': ...}`. -/
structure STEntry where
  timestamp : Nat
  content : String
deriving DecidableEq

/-- The manager state: both tables, the `AUTOINCREMENT` counter, the in-process
per-user short-term buffers, and the configured `max_short_term` capacity. -/
structure MemState where
  memories : List MemoryRecord
  conversations : List ConversationTurn
  short_term : String → List STEntry
  next_memory_id : Nat
  max_short_term : Nat

/-- A fresh manager over an empty database (`max_short_term` as configured). -/
def empty_state (cap : Nat) : MemState :=
  { memories := []
    conversations := []
    short_term := fun _ => []
    next_memory_id := 1
    max_short_term := cap }

/-! ### `_generate_hash` -/

/-- The normalization applied before hashing: `content.lower().strip()`. -/
def normalize_content (content : String) : String :=
  py_strip (py_lower content)

/-- Embeds `_generate_hash`: the pre-image `f"{user_name}:{content.lower().strip()}"` of the
SHA-256 call, with the hash idealized as an injective encoding (see module header). -/
def generate_hash (user_name content : String) : String :=
  user_name ++ ":" ++ normalize_content content

/-! ### `add_memory` -/

/-- The `WHERE user_name = ? AND context_hash = ?` row test used by the dedup lookup. -/
def mem_key (user_name context_hash : String) (r : MemoryRecord) : Bool :=
  r.user_name == user_name && r.context_hash == context_hash

/-- The `UPDATE memories SET ... WHERE id = ?` of the duplicate branch, applied
row-wise: rows with a different `id` are untouched. -/
def apply_upd (mid : Nat) (now : Nat) (importance : Int) (is_permanent : Bool)
    (r : MemoryRecord) : MemoryRecord :=
  if r.id = mid then
    { r with updated_at := now, last_accessed := now,
             access_count := r.access_count + 1,
             importance := importance, is_permanent := is_permanent }
  else r

/-- The row built by the `INSERT INTO memories ...` branch (schema defaults:
`created_at`/`updated_at`/`last_accessed` = now, `access_count` = 1). -/
def fresh_record (id : Nat) (now : Nat) (user_name memory_type content : String)
    (importance : Int) (is_permanent : Bool) (expires_at : Option Nat)
    (metadata : Option String) (context_hash : String) : MemoryRecord :=
  { id := id, user_name := user_name, memory_type := memory_type, content := content
    importance := importance, created_at := now, updated_at := now, last_accessed := now
    access_count := 1, context_hash := context_hash, is_permanent := is_permanent
    expires_at := expires_at, metadata := metadata }

/-- Embeds `add_memory`: rejects empty owner/content, else dedups on
`(user_name, context_hash)` — updating the existing row or inserting a new one.
Returns the memory id (`None` on rejection) and the new state. -/
def add_memory (st : MemState) (now : Nat) (user_name memory_type content : String)
    (importance : Int) (is_permanent : Bool) (expires_at : Option Nat)
    (metadata : Option String) : Option Nat × MemState :=
  if user_name = "" ∨ content = "" then (none, st)
  else
    match st.memories.find? (mem_key user_name (generate_hash user_name content)) with
    | some existing =>
        (some existing.id,
         { st with memories :=
             st.memories.map (apply_upd existing.id now importance is_permanent) })
    | none =>
        (some st.next_memory_id,
         { st with
             memories := st.memories ++
               [fresh_record st.next_memory_id now user_name memory_type content
                 importance is_permanent expires_at metadata
                 (generate_hash user_name content)]
             next_memory_id := st.next_memory_id + 1 })

/-! ### `get_memories` -/

/-- The `ORDER BY importance DESC, last_accessed DESC` clause as a total preorder. -/
def mem_order (a b : MemoryRecord) : Prop :=
  b.importance < a.importance ∨
    (a.importance = b.importance ∧ b.last_accessed ≤ a.last_accessed)

instance : DecidableRel mem_order := fun a b => by
  unfold mem_order; infer_instance

/-- The `WHERE` clause of `get_memories`: owner, optional `memory_type`, and
(unless `include_expired`) `expires_at IS NULL OR expires_at > CURRENT_TIMESTAMP`. -/
def matches_query (user_name : String) (memory_type : Option String)
    (include_expired : Bool) (now : Nat) (r : MemoryRecord) : Bool :=
  r.user_name == user_name &&
  (match memory_type with
   | none => true
   | some t => r.memory_type == t) &&
  (include_expired ||
   (match r.expires_at with
    | none => true
    | some e => decide (now < e)))

/-- Embeds `get_memories`: filter, sort by importance desc then last-accessed desc, LIMIT. -/
def get_memories (st : MemState) (now : Nat) (user_name : String)
    (memory_type : Option String) (limit : Nat) (include_expired : Bool) :
    List MemoryRecord :=
  (List.insertionSort mem_order
    (st.memories.filter (matches_query user_name memory_type include_expired now))).take limit

/-! ### `_extract_keywords` and `_calculate_relevance` -/

/-- The hard-coded Turkish stop-word set. -/
def stop_words : List String :=
  ["ve", "veya", "ama", "ile", "bir", "bu", "şu", "o",
   "de", "da", "ki", "mi", "mı", "mu", "mü", "ise", "değil"]

/-- The character class kept by `re.sub(r'[^\w\s]', '', ...)`: word characters
(alphanumeric, underscore, the Turkish letters the source's lexicon uses) and
whitespace. -/
def kept_char (c : Char) : Bool :=
  c.isAlphanum || c == '_' ||
    ['ç', 'ğ', 'ı', 'ö', 'ş', 'ü', 'Ç', 'Ğ', 'İ', 'Ö', 'Ş', 'Ü'].contains c ||
    c.isWhitespace

/-- Embeds `_extract_keywords`: lowercase, strip punctuation, split on whitespace, keep
tokens longer than 2 characters that are not stop words, deduplicate. -/
def extract_keywords (text : String) : List String :=
  if text = "" then []
  else
    let cleaned := String.mk ((py_lower text).data.filter kept_char)
    let words := (py_split_words cleaned).filter
      (fun w => decide (w.length > 2) && !(stop_words.contains w))
    words.eraseDups

/-- The keyword-matching loop of `_calculate_relevance`: `+3.0` per keyword found
in the lowercased content, `+1.5` more when the content starts with it. -/
def keyword_score (content : String) (keywords : List String) : ℚ :=
  keywords.foldl
    (fun s k =>
      if has_substr content k then
        s + 3 + (if py_starts content k then 3 / 2 else 0)
      else s) 0

/-- The recency bonus: `+2.0` when `updated_at` is at most 7 days old, `+1.0` at
most 30 days (`days_old` truncated like `timedelta.days` for non-negative ages;
a future `updated_at` gives non-positive days and hence `+2.0` in both). -/
def recency_bonus (updated_at now : Nat) : ℚ :=
  if (now - updated_at) / 86400 ≤ 7 then 2
  else if (now - updated_at) / 86400 ≤ 30 then 1
  else 0

/-- Embeds `_calculate_relevance`: keyword score + importance bonus + recency bonus +
capped access-frequency bonus. -/
def calculate_relevance (memory : MemoryRecord) (keywords : List String) (now : Nat) : ℚ :=
  keyword_score (py_lower memory.content) keywords
    + ((memory.importance : ℚ) / 10) * 2
    + recency_bonus memory.updated_at now
    + min 3 ((memory.access_count : ℚ) * (1 / 2))

/-- Python's stable `sort(key=lambda x: x[0], reverse=True)` on scored pairs. -/
def score_order (a b : ℚ × MemoryRecord) : Prop :=
  b.1 ≤ a.1

instance : DecidableRel score_order := fun a b => by
  unfold score_order; infer_instance

/-- Embeds `get_contextual_memories`: load up to 100 non-expired memories, score them by
the extracted keywords, return the top `limit`; with no keywords, fall back to
the first `limit` of the unscored list. -/
def get_contextual_memories (st : MemState) (now : Nat)
    (user_name current_message : String) (limit : Nat) : List MemoryRecord :=
  let all_memories := get_memories st now user_name none 100 false
  let keywords := extract_keywords current_message
  if keywords = [] then
    all_memories.take limit
  else
    let scored := all_memories.map (fun m => (calculate_relevance m keywords now, m))
    ((List.insertionSort score_order scored).take limit).map (fun x => x.2)

/-! ### Conversations and the short-term buffer -/

/-- The `ORDER BY timestamp DESC` clause. -/
def conv_order (a b : ConversationTurn) : Prop :=
  b.timestamp ≤ a.timestamp

instance : DecidableRel conv_order := fun a b => by
  unfold conv_order; infer_instance

/-- Embeds `get_recent_conversations`: most-recent-first, LIMIT, then reversed (oldest first). -/
def get_recent_conversations (st : MemState) (user_name : String) (limit : Nat) :
    List ConversationTurn :=
  ((List.insertionSort conv_order
      (st.conversations.filter (fun t => t.user_name == user_name))).take limit).reverse

/-- The `deque(maxlen=cap)` append: add the new timestamped entry at the back and
evict from the front down to `cap` entries. -/
def push_entry (buf : List STEntry) (now : Nat) (content : String) (cap : Nat) :
    List STEntry :=
  (buf ++ [STEntry.mk now content]).drop ((buf ++ [STEntry.mk now content]).length - cap)

/-- Embeds `add_short_term`: append a timestamped entry to the user's deque; the
`maxlen = max_short_term` deque evicts from the front when over capacity. -/
def add_short_term (st : MemState) (now : Nat) (user_name : String) (content : String) :
    MemState :=
  { st with short_term := fun v =>
      if v = user_name then push_entry (st.short_term user_name) now content st.max_short_term
      else st.short_term v }

/-- Embeds `get_short_term`. -/
def get_short_term (st : MemState) (user_name : String) : List STEntry :=
  st.short_term user_name

/-! ### `build_context` -/

/-- The conversation section body: two speaker lines per turn, in order. -/
def conv_lines (user_name : String) (recent : List ConversationTurn) : List String :=
  recent.foldl
    (fun acc conv =>
      acc ++ [user_name ++ ": " ++ conv.user_message,
              "Asena: " ++ conv.assistant_response]) []

/-- The final truncation of `build_context`: cut to `max_tokens * 4` characters
and append `"..."` when over budget. -/
def truncate_context (context : String) (max_tokens : Nat) : String :=
  if context.length > max_tokens * 4 then py_take context (max_tokens * 4) ++ "..."
  else context

/-- Embeds `build_context`: recent conversation, contextual memories, last 3 short-term
entries (each section omitted when empty), joined with newlines, then truncated. -/
def build_context (st : MemState) (now : Nat) (user_name current_message : String)
    (max_tokens : Nat) : String :=
  let recent := get_recent_conversations st user_name 3
  let part1 :=
    if recent.isEmpty then []
    else "--- Recent Conversation ---" :: conv_lines user_name recent
  let mems := get_contextual_memories st now user_name current_message 5
  let part2 :=
    if mems.isEmpty then []
    else "\n--- Relevant Memories ---" :: mems.map (fun m => "- " ++ m.content)
  let stm := get_short_term st user_name
  let part3 :=
    if stm.isEmpty then []
    else "\n--- Current Session ---" ::
      (stm.drop (stm.length - 3)).map (fun e => "- " ++ e.content)
  truncate_context (String.intercalate "\n" (part1 ++ part2 ++ part3)) max_tokens

/-! ### `cleanup_expired` -/

/-- The `DELETE` condition: `expires_at IS NOT NULL AND expires_at < CURRENT_TIMESTAMP`. -/
def expired_pred (now : Nat) (r : MemoryRecord) : Bool :=
  match r.expires_at with
  | none => false
  | some e => decide (e < now)

/-- Embeds `cleanup_expired`: delete every row matching `expired_pred`, return the
number of deleted rows (`cursor.rowcount`) and the new state. -/
def cleanup_expired (st : MemState) (now : Nat) : Nat × MemState :=
  let kept := st.memories.filter (fun r => !(expired_pred now r))
  (st.memories.length - kept.length, { st with memories := kept })

/-! ### Invariants and call sequences -/

/-- Two rows agree on the dedup key `(user_name, context_hash)`. -/
def same_key (a b : MemoryRecord) : Prop :=
  a.user_name = b.user_name ∧ a.context_hash = b.context_hash

/-- The dedup invariant: no two distinct stored rows share `(owner, fingerprint)`
(the `UNIQUE(user_name, context_hash)` constraint of the schema). -/
def DedupInv (st : MemState) : Prop :=
  st.memories.Pairwise (fun a b => ¬ same_key a b)

/-- The argument tuple of one `add_memory` call. -/
structure AddCall where
  now : Nat
  user_name : String
  memory_type : String
  content : String
  importance : Int
  is_permanent : Bool
  expires_at : Option Nat
  metadata : Option String

/-- Run a sequence of `add_memory` calls, threading the state. -/
def apply_adds (st : MemState) (calls : List AddCall) : MemState :=
  calls.foldl
    (fun s c =>
      (add_memory s c.now c.user_name c.memory_type c.content c.importance
        c.is_permanent c.expires_at c.metadata).2) st

/-- Run a sequence of `add_short_term` pushes `(now, content)` for one user. -/
def apply_short_term (st : MemState) (user_name : String) (items : List (Nat × String)) :
    MemState :=
  items.foldl (fun s it => add_short_term s it.1 user_name it.2) st

/-- The buffer entry a push `(now, content)` stores. -/
def st_wrap (it : Nat × String) : STEntry :=
  { timestamp := it.1, content := it.2 }

/-- Ordering by `last_accessed DESC` alone. -/
def recency_order (a b : MemoryRecord) : Prop :=
  b.last_accessed ≤ a.last_accessed

instance : DecidableRel recency_order := fun a b => by
  unfold recency_order; infer_instance

/-- Following the spec's words for the contextual fallback: the owner's
non-expired memories in pure recency order (most recently accessed first),
unscored.  Used to compare the spec sentence with what the code computes. -/
def spec_recency_ordered (st : MemState) (now : Nat) (user_name : String) :
    List MemoryRecord :=
  List.insertionSort recency_order
    (st.memories.filter (matches_query user_name none false now))

/-! ### Concrete fixtures for witnesses and counterexamples -/

/-- A row with the given id, owner, content, importance, last write time,
permanence flag and expiry, and defaults elsewhere. -/
def mk_rec (id : Nat) (u c : String) (imp : Int) (at_ : Nat) (perm : Bool)
    (exp : Option Nat) : MemoryRecord :=
  { id := id, user_name := u, memory_type := "note", content := c, importance := imp
    created_at := 0, updated_at := at_, last_accessed := at_, access_count := 1
    context_hash := generate_hash u c, is_permanent := perm, expires_at := exp
    metadata := none }

def ex_rec_perm : MemoryRecord := mk_rec 1 "u" "a" 5 0 true (some 5)

def ex_rec_keep : MemoryRecord := mk_rec 2 "u" "b" 5 0 false none

def ex_state_c2 : MemState :=
  { empty_state 10 with memories := [ex_rec_perm, ex_rec_keep], next_memory_id := 3 }

def ex_rec_exp : MemoryRecord := mk_rec 1 "u" "a" 5 0 false (some 5)

def ex_state_c3 : MemState :=
  { empty_state 10 with memories := [ex_rec_exp], next_memory_id := 2 }

def ex_rec_c4a : MemoryRecord := mk_rec 1 "u" "aaa" 5 900 false none

def ex_rec_c4b : MemoryRecord := mk_rec 2 "u" "bbb" 9 50 false none

def ex_state_c4 : MemState :=
  { empty_state 10 with memories := [ex_rec_c4a, ex_rec_c4b], next_memory_id := 3 }

def ex_rec_c6a : MemoryRecord := mk_rec 1 "u" "kahve sever" 5 0 false none

def ex_rec_c6b : MemoryRecord := mk_rec 2 "u" "kahve sever" 9 0 false none

def ex_rec_c10 : MemoryRecord := mk_rec 1 "u" "x" 5 0 false (some 99)

def ex_state_c10 : MemState :=
  { empty_state 10 with memories := [ex_rec_c10], next_memory_id := 2 }

/-! ### Helper lemmas -/

theorem add_memory_eq_reject (st : MemState) (now : Nat) (u cat c : String) (imp : Int)
    (perm : Bool) (exp : Option Nat) (md : Option String) (h : u = "" ∨ c = "") :
    add_memory st now u cat c imp perm exp md = (none, st) := by
  unfold add_memory
  rw [if_pos h]

theorem add_memory_eq_update (st : MemState) (now : Nat) (u cat c : String) (imp : Int)
    (perm : Bool) (exp : Option Nat) (md : Option String) (r : MemoryRecord)
    (hcond : ¬(u = "" ∨ c = ""))
    (hfind : st.memories.find? (mem_key u (generate_hash u c)) = some r) :
    add_memory st now u cat c imp perm exp md =
      (some r.id,
       { st with memories := st.memories.map (apply_upd r.id now imp perm) }) := by
  unfold add_memory
  rw [if_neg hcond, hfind]

theorem add_memory_eq_insert (st : MemState) (now : Nat) (u cat c : String) (imp : Int)
    (perm : Bool) (exp : Option Nat) (md : Option String)
    (hcond : ¬(u = "" ∨ c = ""))
    (hfind : st.memories.find? (mem_key u (generate_hash u c)) = none) :
    add_memory st now u cat c imp perm exp md =
      (some st.next_memory_id,
       { st with
           memories := st.memories ++
             [fresh_record st.next_memory_id now u cat c imp perm exp md
               (generate_hash u c)]
           next_memory_id := st.next_memory_id + 1 }) := by
  unfold add_memory
  rw [if_neg hcond, hfind]

theorem apply_upd_user_name (mid now : Nat) (imp : Int) (perm : Bool) (r : MemoryRecord) :
    (apply_upd mid now imp perm r).user_name = r.user_name := by
  unfold apply_upd; split <;> rfl

theorem apply_upd_context_hash (mid now : Nat) (imp : Int) (perm : Bool) (r : MemoryRecord) :
    (apply_upd mid now imp perm r).context_hash = r.context_hash := by
  unfold apply_upd; split <;> rfl

theorem mem_key_apply_upd (u h : String) (mid now : Nat) (imp : Int) (perm : Bool)
    (r : MemoryRecord) :
    mem_key u h (apply_upd mid now imp perm r) = mem_key u h r := by
  unfold mem_key
  rw [apply_upd_user_name, apply_upd_context_hash]

theorem same_key_apply_upd (mid now : Nat) (imp : Int) (perm : Bool) (a b : MemoryRecord) :
    same_key (apply_upd mid now imp perm a) (apply_upd mid now imp perm b) ↔ same_key a b := by
  unfold same_key
  rw [apply_upd_user_name, apply_upd_user_name, apply_upd_context_hash, apply_upd_context_hash]

theorem filter_map_of_pred_preserved {α : Type} (p : α → Bool) (f : α → α)
    (hf : ∀ r, p (f r) = p r) (l : List α) :
    (l.map f).filter p = (l.filter p).map f := by
  induction l with
  | nil => rfl
  | cons a t ih =>
    by_cases h : p a = true
    · simp [List.filter_cons, hf a, h, ih]
    · simp [List.filter_cons, hf a, h, ih]

theorem length_filter_not_add {α : Type} (p : α → Bool) (l : List α) :
    (l.filter (fun x => !(p x))).length + (l.filter p).length = l.length := by
  induction l with
  | nil => rfl
  | cons a t ih =>
    by_cases h : p a = true
    · simp [List.filter_cons, h]; omega
    · simp [List.filter_cons, h]; omega

theorem drop_sub_eq_reverse_take {α : Type} (l : List α) (n : Nat) :
    l.drop (l.length - n) = (l.reverse.take n).reverse := by
  rw [List.take_reverse, List.reverse_reverse]

theorem take_append_take {α : Type} (n : Nat) (a b : List α) :
    (a ++ b.take n).take n = (a ++ b).take n := by
  rw [List.take_append_eq_append_take, List.take_append_eq_append_take, List.take_take]
  rw [inf_eq_left.2 (Nat.sub_le _ _)]

theorem lastN_append {α : Type} (cap : Nat) (m s : List α) :
    ((m.drop (m.length - cap)) ++ s).drop (((m.drop (m.length - cap)) ++ s).length - cap)
      = (m ++ s).drop ((m ++ s).length - cap) := by
  rw [drop_sub_eq_reverse_take ((m.drop (m.length - cap)) ++ s) cap,
      drop_sub_eq_reverse_take (m ++ s) cap]
  rw [List.reverse_append, List.reverse_append]
  rw [drop_sub_eq_reverse_take m cap, List.reverse_reverse]
  rw [take_append_take]

theorem add_short_term_get (st : MemState) (now : Nat) (u c : String) :
    (add_short_term st now u c).short_term u =
      (st.short_term u ++ [STEntry.mk now c]).drop
        ((st.short_term u ++ [STEntry.mk now c]).length - st.max_short_term) := by
  simp [add_short_term, push_entry]

theorem add_short_term_other (st : MemState) (now : Nat) (u c v : String) (hv : v ≠ u) :
    (add_short_term st now u c).short_term v = st.short_term v := by
  simp [add_short_term, hv]

theorem add_short_term_cap (st : MemState) (now : Nat) (u c : String) :
    (add_short_term st now u c).max_short_term = st.max_short_term := rfl

theorem apply_short_term_get (u : String) (items : List (Nat × String)) (st : MemState)
    (hlen : (st.short_term u).length ≤ st.max_short_term) :
    (apply_short_term st u items).short_term u =
      (st.short_term u ++ items.map st_wrap).drop
        ((st.short_term u ++ items.map st_wrap).length - st.max_short_term) := by
  induction items generalizing st with
  | nil =>
    simp only [apply_short_term, List.foldl_nil, List.map_nil, List.append_nil]
    rw [Nat.sub_eq_zero_of_le hlen, List.drop_zero]
  | cons it rest ih =>
    have hstep : apply_short_term st u (it :: rest)
        = apply_short_term (add_short_term st it.1 u it.2) u rest := rfl
    rw [hstep]
    have hcap : (add_short_term st it.1 u it.2).max_short_term = st.max_short_term := rfl
    have hlen2 : ((add_short_term st it.1 u it.2).short_term u).length
        ≤ (add_short_term st it.1 u it.2).max_short_term := by
      rw [add_short_term_get, hcap, List.length_drop]
      omega
    rw [ih (add_short_term st it.1 u it.2) hlen2, hcap, add_short_term_get]
    have hw : STEntry.mk it.1 it.2 = st_wrap it := rfl
    rw [hw]
    rw [lastN_append st.max_short_term (st.short_term u ++ [st_wrap it]) (rest.map st_wrap)]
    rw [List.append_assoc]
    rfl

theorem add_memory_dedup_step (st : MemState) (now : Nat) (u cat c : String) (imp : Int)
    (perm : Bool) (exp : Option Nat) (md : Option String) (hd : DedupInv st) :
    DedupInv (add_memory st now u cat c imp perm exp md).2 := by
  by_cases hcond : u = "" ∨ c = ""
  · rw [add_memory_eq_reject st now u cat c imp perm exp md hcond]
    exact hd
  · cases hfind : st.memories.find? (mem_key u (generate_hash u c)) with
    | some r =>
      rw [add_memory_eq_update st now u cat c imp perm exp md r hcond hfind]
      unfold DedupInv at hd ⊢
      rw [List.pairwise_map]
      exact hd.imp (fun hab hk => hab ((same_key_apply_upd _ _ _ _ _ _).1 hk))
    | none =>
      rw [add_memory_eq_insert st now u cat c imp perm exp md hcond hfind]
      unfold DedupInv at hd ⊢
      rw [List.pairwise_append]
      refine ⟨hd, by simp, ?_⟩
      intro a ha b hb hk
      have hb' : b = fresh_record st.next_memory_id now u cat c imp perm exp md
          (generate_hash u c) := by simpa using hb
      have hkey : mem_key u (generate_hash u c) a = true := by
        unfold same_key at hk
        rw [hb'] at hk
        unfold fresh_record at hk
        unfold mem_key
        simp [hk.1, hk.2]
      exact (List.find?_eq_none.1 hfind a ha) hkey

/-! ### Claim theorems -/

/-- C2 counterexample: a permanent record (`is_permanent = true`) whose
`expires_at` has passed is deleted by `cleanup_expired`, contradicting the claim
that every permanent record survives the purge. -/
theorem cleanup_expired_permanent_deleted_cex :
    ex_rec_perm.is_permanent = true ∧ ex_rec_perm.expires_at = some 5 ∧ (5 : Nat) < 10 ∧
    ex_rec_perm ∈ ex_state_c2.memories ∧
    ex_rec_perm ∉ (cleanup_expired ex_state_c2 10).2.memories := by
  decide

/-- C2 (amended): `cleanup_expired` deletes exactly the records whose
`expires_at` is set and in the past, regardless of `is_permanent` — a record
survives iff its expiry is unset or not yet passed — and returns the number of
deleted rows. -/
theorem cleanup_expired_exact (st : MemState) (now : Nat) :
    (∀ r ∈ st.memories,
      (r ∈ (cleanup_expired st now).2.memories ↔ ∀ e, r.expires_at = some e → ¬ e < now)) ∧
    (cleanup_expired st now).1 = (st.memories.filter (expired_pred now)).length := by
  constructor
  · intro r hr
    simp only [cleanup_expired, List.mem_filter]
    constructor
    · intro h e he
      have := h.2
      rw [expired_pred] at this
      rw [he] at this
      simpa using this
    · intro h
      refine ⟨hr, ?_⟩
      rw [expired_pred]
      cases hcase : r.expires_at with
      | none => rfl
      | some e => simpa using h e hcase
  · have h := length_filter_not_add (expired_pred now) st.memories
    simp only [cleanup_expired]
    omega

/-- C2 (amended) witness at a concrete state: the unexpired record survives and
exactly one row is reported deleted. -/
theorem cleanup_expired_exact_witness :
    (ex_rec_keep ∈ (cleanup_expired ex_state_c2 10).2.memories ↔
      ∀ e, ex_rec_keep.expires_at = some e → ¬ e < 10) ∧
    (cleanup_expired ex_state_c2 10).1 =
      (ex_state_c2.memories.filter (expired_pred 10)).length :=
  ⟨(cleanup_expired_exact ex_state_c2 10).1 ex_rec_keep (by decide),
   (cleanup_expired_exact ex_state_c2 10).2⟩

/-- C3: a record whose `expires_at` is set and in the past — whatever its
`is_permanent` flag — is absent from `get_memories` with `include_expired = false`
and present with `include_expired = true` (when it matches the owner/type filters
and the limit covers all matching rows). -/
theorem get_memories_expiry_filter (st : MemState) (now : Nat) (u : String)
    (mt : Option String) (limit : Nat) (r : MemoryRecord) (e : Nat)
    (hr : r ∈ st.memories) (hu : r.user_name = u)
    (hmt : ∀ t, mt = some t → r.memory_type = t)
    (he : r.expires_at = some e) (hlt : e < now) :
    r ∉ get_memories st now u mt limit false ∧
    ((st.memories.filter (matches_query u mt true now)).length ≤ limit →
      r ∈ get_memories st now u mt limit true) := by
  constructor
  · intro hmem
    have h1 : r ∈ List.insertionSort mem_order
        (st.memories.filter (matches_query u mt false now)) :=
      List.mem_of_mem_take hmem
    have h2 : r ∈ st.memories.filter (matches_query u mt false now) :=
      (List.mem_insertionSort mem_order).1 h1
    have h3 := (List.mem_filter.1 h2).2
    unfold matches_query at h3
    rw [he] at h3
    simp at h3
    omega
  · intro hlim
    have hq : matches_query u mt true now r = true := by
      unfold matches_query
      simp [hu]
      cases mt with
      | none => simp
      | some t => simp [hmt t rfl]
    have h2 : r ∈ st.memories.filter (matches_query u mt true now) :=
      List.mem_filter.2 ⟨hr, hq⟩
    have h3 : r ∈ List.insertionSort mem_order
        (st.memories.filter (matches_query u mt true now)) :=
      (List.mem_insertionSort mem_order).2 h2
    rw [get_memories, List.take_of_length_le
      (by rw [List.length_insertionSort]; exact hlim)]
    exact h3

/-- C3 witness: the concrete expired record is filtered out by default and
returned with `include_expired = true`. -/
theorem get_memories_expiry_filter_witness :
    ex_rec_exp ∉ get_memories ex_state_c3 10 "u" none 50 false ∧
    ex_rec_exp ∈ get_memories ex_state_c3 10 "u" none 50 true := by
  have h := get_memories_expiry_filter ex_state_c3 10 "u" none 50 ex_rec_exp 5
    (by decide) rfl (by simp) rfl (by decide)
  exact ⟨h.1, h.2 (by decide)⟩

/-- C4 counterexample: with an empty query (no keywords), the fallback returns
the head of the importance-first `get_memories` list — here the older but more
important record — not the head of the recency-ordered list the claim
describes. -/
theorem get_contextual_fallback_cex :
    extract_keywords "" = [] ∧
    get_contextual_memories ex_state_c4 1000 "u" "" 1 = [ex_rec_c4b] ∧
    (spec_recency_ordered ex_state_c4 1000 "u").take 1 = [ex_rec_c4a] ∧
    ex_rec_c4a ≠ ex_rec_c4b ∧
    get_contextual_memories ex_state_c4 1000 "u" "" 1 ≠
      (spec_recency_ordered ex_state_c4 1000 "u").take 1 := by
  decide

/-- C4 (amended): when keyword extraction yields no keywords, the result is the
first `limit` elements of the unscored `get_memories` list (ordered by
importance desc, then last-accessed desc, capped at 100) — not a purely
recency-ordered list. -/
theorem get_contextual_fallback (st : MemState) (now : Nat) (u msg : String)
    (limit : Nat) (hk : extract_keywords msg = []) :
    get_contextual_memories st now u msg limit =
      (get_memories st now u none 100 false).take limit := by
  simp [get_contextual_memories, hk]

/-- C4 (amended) witness: a stop-word-only query falls back to the unscored list. -/
theorem get_contextual_fallback_witness :
    get_contextual_memories ex_state_c4 1000 "u" "ve bu" 1 =
      (get_memories ex_state_c4 1000 "u" none 100 false).take 1 :=
  get_contextual_fallback ex_state_c4 1000 "u" "ve bu" 1 (by decide)

theorem truncate_context_length (s : String) (mt : Nat) :
    (truncate_context s mt).length ≤ mt * 4 + "...".length := by
  unfold truncate_context
  split
  · rw [String.length_append]
    have h : (py_take s (mt * 4)).length ≤ mt * 4 := by
      show (s.data.take (mt * 4)).length ≤ mt * 4
      rw [List.length_take]
      omega
    omega
  · next h =>
    have h3 : (0 : Nat) ≤ "...".length := Nat.zero_le _
    omega

/-- C5: the string returned by `build_context` never exceeds the character
budget `max_tokens * 4` plus the length of the `"..."` ellipsis marker. -/
theorem build_context_budget (st : MemState) (now : Nat) (u msg : String) (mt : Nat) :
    (build_context st now u msg mt).length ≤ mt * 4 + "...".length :=
  truncate_context_length _ mt

/-- C6: two memories identical in content, update time and access count but with
different importance score strictly in importance order for every keyword set. -/
theorem calculate_relevance_importance_mono (keywords : List String) (now : Nat)
    (m1 m2 : MemoryRecord) (hc : m1.content = m2.content)
    (hu : m1.updated_at = m2.updated_at) (ha : m1.access_count = m2.access_count)
    (hi : m1.importance < m2.importance) :
    calculate_relevance m1 keywords now < calculate_relevance m2 keywords now := by
  unfold calculate_relevance
  rw [hc, hu, ha]
  have h : (m1.importance : ℚ) < (m2.importance : ℚ) := by exact_mod_cast hi
  linarith

/-- C6 witness: importance 5 vs 9, all else equal. -/
theorem calculate_relevance_importance_mono_witness :
    calculate_relevance ex_rec_c6a ["kahve"] 0 < calculate_relevance ex_rec_c6b ["kahve"] 0 :=
  calculate_relevance_importance_mono ["kahve"] 0 ex_rec_c6a ex_rec_c6b rfl rfl rfl
    (by decide)

/-- C7 counterexample: two distinct normalized `(owner, content)` pairs receive
the same fingerprint, because the `":"` separator also occurs inside the owner
and the code therefore hashes the same combined string for both. -/
theorem generate_hash_pair_collision_cex :
    generate_hash "a:b" "c" = generate_hash "a" "b:c" ∧
    ("a:b", normalize_content "c") ≠ ("a", normalize_content "b:c") := by
  decide

/-- C7 (amended): the fingerprint is deterministic; it identifies
case/whitespace-normalized content (`"Coffee "` vs `"coffee"`); and for a fixed
owner, contents with distinct normalized forms get distinct fingerprints (with
the hash idealized as injective) — across owners distinctness can fail when the
owner contains `":"`. -/
theorem generate_hash_props :
    (∀ u c, generate_hash u c = generate_hash u c) ∧
    (∀ u, generate_hash u "Coffee " = generate_hash u "coffee") ∧
    (∀ u c1 c2, normalize_content c1 ≠ normalize_content c2 →
      generate_hash u c1 ≠ generate_hash u c2) := by
  refine ⟨fun u c => rfl, fun u => ?_, fun u c1 c2 hne heq => ?_⟩
  · unfold generate_hash
    rw [show normalize_content "Coffee " = normalize_content "coffee" from by decide]
  · unfold generate_hash at heq
    have hd := congrArg String.data heq
    rw [String.data_append, String.data_append, String.data_append,
        String.data_append] at hd
    exact hne (String.ext (List.append_cancel_left hd))

/-- C7 (amended) witness: distinct normalized contents under one owner give
distinct fingerprints. -/
theorem generate_hash_props_witness :
    generate_hash "u" "aa" ≠ generate_hash "u" "bb" :=
  generate_hash_props.2.2 "u" "aa" "bb" (by decide)

/-- C9: `add_memory` with an empty owner or empty content returns the `none`
sentinel and leaves the state — in particular the stored memories — unchanged. -/
theorem add_memory_rejects_empty (st : MemState) (now : Nat) (u cat c : String)
    (imp : Int) (perm : Bool) (exp : Option Nat) (md : Option String)
    (h : u = "" ∨ c = "") :
    add_memory st now u cat c imp perm exp md = (none, st) :=
  add_memory_eq_reject st now u cat c imp perm exp md h

/-- C9 witness: empty owner at a concrete state. -/
theorem add_memory_rejects_empty_witness :
    add_memory (empty_state 10) 0 "" "note" "x" 5 false none none =
      (none, empty_state 10) :=
  add_memory_rejects_empty (empty_state 10) 0 "" "note" "x" 5 false none none
    (Or.inl rfl)

theorem apply_upd_self (mid now : Nat) (imp : Int) (perm : Bool) (r : MemoryRecord)
    (h : r.id = mid) :
    apply_upd mid now imp perm r =
      { r with updated_at := now, last_accessed := now,
               access_count := r.access_count + 1,
               importance := imp, is_permanent := perm } := by
  unfold apply_upd
  rw [if_pos h]

theorem double_add_aux (st : MemState) (now₂ : Nat) (u cat₂ c : String) (imp₂ : Int)
    (perm₂ : Bool) (exp₂ : Option Nat) (md₂ : Option String) (F : MemoryRecord)
    (hcond : ¬(u = "" ∨ c = ""))
    (hnone : ∀ r ∈ st.memories, mem_key u (generate_hash u c) r = false)
    (hkey : mem_key u (generate_hash u c) F = true) :
    ((add_memory
        { st with memories := st.memories ++ [F]
                  next_memory_id := st.next_memory_id + 1 }
        now₂ u cat₂ c imp₂ perm₂ exp₂ md₂).2.memories.filter
      (mem_key u (generate_hash u c))) = [apply_upd F.id now₂ imp₂ perm₂ F] := by
  have hfind1 : st.memories.find? (mem_key u (generate_hash u c)) = none :=
    List.find?_eq_none.2 (fun x hx => by rw [hnone x hx]; simp)
  have hfind2 : (st.memories ++ [F]).find? (mem_key u (generate_hash u c)) = some F := by
    rw [List.find?_append, hfind1]
    simp [List.find?_cons_of_pos, hkey]
  rw [add_memory_eq_update _ now₂ u cat₂ c imp₂ perm₂ exp₂ md₂ F hcond hfind2]
  rw [filter_map_of_pred_preserved _ _ (fun r => mem_key_apply_upd _ _ _ _ _ _ r)]
  rw [List.filter_append,
      List.filter_eq_nil_iff.2 (fun a ha => by rw [hnone a ha]; simp),
      List.filter_cons, if_pos hkey]
  simp

/-- C1: adding the same `(owner, content)` twice — starting from a state holding
no record for that fingerprint — leaves exactly one matching record, with
`access_count = 2` and `updated_at` advanced to the second call's time; and in
general every sequence of `add_memory` calls preserves the at-most-one-record-
per-(owner, fingerprint) invariant. -/
theorem add_memory_dedup_invariant :
    (∀ (st : MemState) (now₁ now₂ : Nat) (u cat₁ c : String) (imp₁ : Int)
        (perm₁ : Bool) (exp₁ : Option Nat) (md₁ : Option String) (cat₂ : String)
        (imp₂ : Int) (perm₂ : Bool) (exp₂ : Option Nat) (md₂ : Option String),
      u ≠ "" → c ≠ "" → now₁ < now₂ →
      (∀ r ∈ st.memories, mem_key u (generate_hash u c) r = false) →
      ∃ rec,
        ((add_memory (add_memory st now₁ u cat₁ c imp₁ perm₁ exp₁ md₁).2
            now₂ u cat₂ c imp₂ perm₂ exp₂ md₂).2.memories.filter
          (mem_key u (generate_hash u c))) = [rec] ∧
        rec.access_count = 2 ∧ rec.updated_at = now₂ ∧ rec.created_at = now₁ ∧
        rec.created_at < rec.updated_at) ∧
    (∀ (st : MemState) (calls : List AddCall),
      DedupInv st → DedupInv (apply_adds st calls)) := by
  constructor
  · intro st now₁ now₂ u cat₁ c imp₁ perm₁ exp₁ md₁ cat₂ imp₂ perm₂ exp₂ md₂
      hu hc hlt hnone
    have hcond : ¬(u = "" ∨ c = "") := by
      intro h
      cases h with
      | inl h => exact hu h
      | inr h => exact hc h
    have hfind1 : st.memories.find? (mem_key u (generate_hash u c)) = none :=
      List.find?_eq_none.2 (fun x hx => by rw [hnone x hx]; simp)
    have hkey : mem_key u (generate_hash u c)
        (fresh_record st.next_memory_id now₁ u cat₁ c imp₁ perm₁ exp₁ md₁
          (generate_hash u c)) = true := by
      unfold mem_key fresh_record
      simp
    rw [add_memory_eq_insert st now₁ u cat₁ c imp₁ perm₁ exp₁ md₁ hcond hfind1]
    refine ⟨_, double_add_aux st now₂ u cat₂ c imp₂ perm₂ exp₂ md₂ _ hcond hnone hkey,
      ?_, ?_, ?_, ?_⟩
    · rw [apply_upd_self _ _ _ _ _ rfl]
      rfl
    · rw [apply_upd_self _ _ _ _ _ rfl]
    · rw [apply_upd_self _ _ _ _ _ rfl]
      rfl
    · rw [apply_upd_self _ _ _ _ _ rfl]
      exact hlt
  · intro st calls hd
    induction calls generalizing st with
    | nil => exact hd
    | cons cl rest ih =>
      exact ih _ (add_memory_dedup_step st cl.now cl.user_name cl.memory_type
        cl.content cl.importance cl.is_permanent cl.expires_at cl.metadata hd)

/-- C1 witness: two identical adds from the empty database leave exactly one
matching record, and the dedup invariant holds after a concrete call sequence. -/
theorem add_memory_dedup_invariant_witness :
    ((add_memory (add_memory (empty_state 10) 1 "u" "note" "kahve" 5 false none none).2
        2 "u" "note" "kahve" 7 true none none).2.memories.filter
      (mem_key "u" (generate_hash "u" "kahve"))).length = 1 ∧
    DedupInv (apply_adds (empty_state 10)
      [AddCall.mk 1 "u" "note" "kahve" 5 false none none]) := by
  constructor
  · obtain ⟨rec, hfilter, -⟩ :=
      add_memory_dedup_invariant.1 (empty_state 10) 1 2 "u" "note" "kahve" 5 false
        none none "note" 7 true none none (by decide) (by decide) (by decide)
        (by intro r hr; simp [empty_state] at hr)
    rw [hfilter]
    rfl
  · exact add_memory_dedup_invariant.2 (empty_state 10)
      [AddCall.mk 1 "u" "note" "kahve" 5 false none none] List.Pairwise.nil

/-- C8: pushing `capacity + k` entries into an empty short-term buffer leaves
exactly the newest `capacity` entries in push order (the oldest `k` are
evicted), and every push preserves the size ≤ capacity bound. -/
theorem short_term_capacity_bound :
    (∀ (st : MemState) (u : String) (items : List (Nat × String)) (k : Nat),
      st.short_term u = [] → items.length = st.max_short_term + k →
      get_short_term (apply_short_term st u items) u = (items.map st_wrap).drop k ∧
      (get_short_term (apply_short_term st u items) u).length = st.max_short_term) ∧
    (∀ (st : MemState) (now : Nat) (u c v : String),
      (st.short_term v).length ≤ st.max_short_term →
      ((add_short_term st now u c).short_term v).length ≤
        (add_short_term st now u c).max_short_term) := by
  constructor
  · intro st u items k h0 hlen
    have hget := apply_short_term_get u items st (by rw [h0]; simp)
    rw [h0] at hget
    simp only [List.nil_append] at hget
    have hml : (items.map st_wrap).length = st.max_short_term + k := by
      rw [List.length_map]
      exact hlen
    constructor
    · rw [get_short_term, hget, hml]
      congr 1
      omega
    · rw [get_short_term, hget, List.length_drop, hml]
      omega
  · intro st now u c v hv
    by_cases hvu : v = u
    · subst hvu
      rw [add_short_term_cap, add_short_term_get, List.length_drop]
      omega
    · rw [add_short_term_other st now u c v hvu, add_short_term_cap]
      exact hv

/-- C8 witness: capacity 2, three pushes — the first entry is evicted and the
last two remain in order. -/
theorem short_term_capacity_bound_witness :
    get_short_term
        (apply_short_term (empty_state 2) "u" [(1, "a"), (2, "b"), (3, "c")]) "u" =
      ([(1, "a"), (2, "b"), (3, "c")].map st_wrap).drop 1 ∧
    (get_short_term
        (apply_short_term (empty_state 2) "u" [(1, "a"), (2, "b"), (3, "c")]) "u").length
      = 2 :=
  short_term_capacity_bound.1 (empty_state 2) "u" [(1, "a"), (2, "b"), (3, "c")] 1
    rfl rfl

/-- C10: re-adding content whose fingerprint matches the stored record `r` only
touches `r`'s `updated_at`, `last_accessed`, `access_count`, `importance` and
`is_permanent`; its `id`, `content`, `memory_type`, `created_at`, `expires_at`
and `metadata` are unchanged (the call's `expires_at`/`metadata` arguments are
ignored), every other record is untouched, and the rest of the state is
unchanged. -/
theorem add_memory_duplicate_frame (st : MemState) (now : Nat) (u cat c : String)
    (imp : Int) (perm : Bool) (exp : Option Nat) (md : Option String)
    (r : MemoryRecord) (hu : u ≠ "") (hc : c ≠ "")
    (hfind : st.memories.find? (mem_key u (generate_hash u c)) = some r) :
    ∃ st₂, add_memory st now u cat c imp perm exp md = (some r.id, st₂) ∧
      st₂.next_memory_id = st.next_memory_id ∧
      st₂.conversations = st.conversations ∧
      st₂.short_term = st.short_term ∧
      st₂.max_short_term = st.max_short_term ∧
      st₂.memories.length = st.memories.length ∧
      ∀ (i : Nat) (hi : i < st.memories.length) (hi2 : i < st₂.memories.length),
        (st₂.memories[i].id = st.memories[i].id ∧
         st₂.memories[i].content = st.memories[i].content ∧
         st₂.memories[i].memory_type = st.memories[i].memory_type ∧
         st₂.memories[i].created_at = st.memories[i].created_at ∧
         st₂.memories[i].expires_at = st.memories[i].expires_at ∧
         st₂.memories[i].metadata = st.memories[i].metadata) ∧
        (st.memories[i].id ≠ r.id → st₂.memories[i] = st.memories[i]) ∧
        (st.memories[i].id = r.id →
          st₂.memories[i] =
            { st.memories[i] with
                updated_at := now, last_accessed := now,
                access_count := st.memories[i].access_count + 1,
                importance := imp, is_permanent := perm }) := by
  have hcond : ¬(u = "" ∨ c = "") := by
    intro h
    cases h with
    | inl h => exact hu h
    | inr h => exact hc h
  refine ⟨_, add_memory_eq_update st now u cat c imp perm exp md r hcond hfind,
    rfl, rfl, rfl, rfl, by simp, ?_⟩
  intro i hi hi2
  have hmap : ∀ (hj : i < (st.memories.map (apply_upd r.id now imp perm)).length),
      (st.memories.map (apply_upd r.id now imp perm))[i]
        = apply_upd r.id now imp perm st.memories[i] :=
    fun hj => List.getElem_map (apply_upd r.id now imp perm)
  rw [hmap hi2]
  by_cases hid : st.memories[i].id = r.id
  · rw [apply_upd_self _ _ _ _ _ hid]
    refine ⟨⟨rfl, rfl, rfl, rfl, rfl, rfl⟩, fun hne => absurd hid hne, fun _ => rfl⟩
  · have hne : apply_upd r.id now imp perm st.memories[i] = st.memories[i] := by
      unfold apply_upd
      rw [if_neg hid]
    rw [hne]
    exact ⟨⟨rfl, rfl, rfl, rfl, rfl, rfl⟩, fun _ => rfl, fun h => absurd h hid⟩

/-- C10 witness: a duplicate add at a concrete state returns the stored id (the
supplied `expires_at`/`metadata` are ignored). -/
theorem add_memory_duplicate_frame_witness :
    (add_memory ex_state_c10 7 "u" "note" "x" 9 true (some 123) (some "ignored")).1
      = some ex_rec_c10.id := by
  obtain ⟨st₂, heq, -⟩ :=
    add_memory_duplicate_frame ex_state_c10 7 "u" "note" "x" 9 true (some 123)
      (some "ignored") ex_rec_c10 (by decide) (by decide) (by decide)
  rw [heq]

end Asena
